import Mathlib

/-!
# Verification of the ESP32 UDP data-acquisition bridge (`testeESP32.py`)

Shallow embedding of the host-side acquisition script `src/testeESP32.py`.
Messages are modelled as `List Char` (the UTF-8 decoded datagram payload).
Python's `float` is modelled exactly over `ℚ` on the decimal-literal fragment
(`[sign] digits [. digits] [(e|E) [sign] digits]`); all values appearing in
the repository's documented examples lie in this fragment.  File I/O is
modelled as appending to a `List` log and is assumed not to fail.
-/

namespace ESP32

/-- Whitespace characters removed by Python's `str.strip()` (ASCII fragment). -/
def isSpace (c : Char) : Bool :=
  c = ' ' || c = '\t' || c = '\n' || c = '\r' || c = Char.ofNat 11 || c = Char.ofNat 12

/-- Python `str.strip()`: drop leading and trailing whitespace. -/
def stripSpaces (l : List Char) : List Char :=
  ((l.dropWhile isSpace).reverse.dropWhile isSpace).reverse

/-- Python `str.split(sep)` for a one-character separator: split at every
occurrence, keeping empty segments (`"".split(',') == ['']`). -/
def splitOnChar (c : Char) : List Char → List (List Char)
  | [] => [[]]
  | x :: xs =>
    if x = c then
      [] :: splitOnChar c xs
    else
      match splitOnChar c xs with
      | [] => [[x]]
      | y :: ys => (x :: y) :: ys

/-- Join segments with `','` (inverse of `splitOnChar ','` on comma-free segments). -/
def joinComma : List (List Char) → List Char
  | [] => []
  | [p] => p
  | p :: ps => p ++ ',' :: joinComma ps

/-- Boolean list-prefix test. -/
def isPrefixOfL : List Char → List Char → Bool
  | [], _ => true
  | _ :: _, [] => false
  | a :: as, b :: bs => a = b && isPrefixOfL as bs

/-- Python's substring containment `pat in s`: `pat` occurs contiguously in `l`. -/
def containsSub (pat : List Char) : List Char → Bool
  | [] => isPrefixOfL pat []
  | a :: rest => isPrefixOfL pat (a :: rest) || containsSub pat rest

/-- `xs[1]` on the result of a `split`: `some` second element, `none` = `IndexError`. -/
def index1 : List (List Char) → Option (List Char)
  | _ :: v :: _ => some v
  | _ => none

/-- Value of a nonempty decimal digit string. -/
def digitsToNat (l : List Char) : ℕ :=
  l.foldl (fun n c => 10 * n + (c.toNat - 48)) 0

/-- Optional sign followed by a nonempty run of digits and nothing else. -/
def parseSignedInt (l : List Char) : Option ℤ :=
  let (sgn, rest) : ℤ × List Char :=
    match l with
    | '+' :: r => (1, r)
    | '-' :: r => (-1, r)
    | r => (1, r)
  let (ds, tail) := rest.span Char.isDigit
  if ds.isEmpty then none
  else if tail.isEmpty then some (sgn * digitsToNat ds) else none

/-- Python `int(s)`: surrounding whitespace, optional sign, decimal digits. -/
def pyInt (l : List Char) : Option ℤ :=
  parseSignedInt (stripSpaces l)

/-- Exponent suffix of a float literal: empty, or `e`/`E` then a signed integer. -/
def parseExp (l : List Char) : Option ℤ :=
  match l with
  | [] => some 0
  | 'e' :: r => parseSignedInt r
  | 'E' :: r => parseSignedInt r
  | _ => none

/-- The exact rational `sgn · mant · 10^e / 10^scale`, via integer arithmetic. -/
def decimalValue (sgn : ℤ) (mant : ℕ) (scale : ℕ) (e : ℤ) : ℚ :=
  if 0 ≤ e then Rat.divInt (sgn * (mant : ℤ) * 10 ^ e.toNat) (10 ^ scale)
  else Rat.divInt (sgn * (mant : ℤ)) (10 ^ scale * 10 ^ (-e).toNat)

/-- Python `float(s)` on finite decimal literals, valued exactly in `ℚ`. -/
def pyFloat (l0 : List Char) : Option ℚ :=
  let l := stripSpaces l0
  let (sgn, r0) : ℤ × List Char :=
    match l with
    | '+' :: r => (1, r)
    | '-' :: r => (-1, r)
    | r => (1, r)
  let (ip, r1) := r0.span Char.isDigit
  match r1 with
  | '.' :: r2 =>
    let (fp, r3) := r2.span Char.isDigit
    if ip.isEmpty && fp.isEmpty then none
    else
      (parseExp r3).map fun e =>
        decimalValue sgn (digitsToNat ip * 10 ^ fp.length + digitsToNat fp) fp.length e
  | _ =>
    if ip.isEmpty then none
    else (parseExp r1).map fun e => decimalValue sgn (digitsToNat ip) 0 e

/-- The key marker `"Tempo_ms:"` tested by `if "Tempo_ms:" in part` (line 223). -/
def kTempo : List Char := "Tempo_ms:".data

/-- The key marker `"Tensao:"` (line 225). -/
def kTensao : List Char := "Tensao:".data

/-- The key marker `"Corrente:"` (line 227). -/
def kCorrente : List Char := "Corrente:".data

/-- The key marker `"Rotacao:"` (line 229). -/
def kRotacao : List Char := "Rotacao:".data

/-- `int(part.split(':')[1])` — `none` models the `ValueError`/`IndexError` raise. -/
def intValue (part : List Char) : Option ℤ :=
  (index1 (splitOnChar ':' part)).bind pyInt

/-- `float(part.split(':')[1])` — `none` models the `ValueError`/`IndexError` raise. -/
def floatValue (part : List Char) : Option ℚ :=
  (index1 (splitOnChar ':' part)).bind pyFloat

/-- The four extraction variables of lines 217-220 (`None` = not yet extracted). -/
structure ParseState where
  timestamp_esp32 : Option ℤ
  tensao : Option ℚ
  corrente : Option ℚ
  rotacao : Option ℤ
deriving DecidableEq

/-- Lines 217-220: all four variables start as `None`. -/
def initState : ParseState := ⟨none, none, none, none⟩

/-- Body of `for part in parts` (lines 222-230): the `if/elif` chain keyed on
substring containment; `.error ()` models an exception escaping the iteration
(failed `int`/`float` conversion, or `IndexError` on `split(':')[1]`). -/
def processPart (st : ParseState) (part : List Char) : Except Unit ParseState :=
  if containsSub kTempo part then
    match intValue part with
    | some v => .ok { st with timestamp_esp32 := some v }
    | none => .error ()
  else if containsSub kTensao part then
    match floatValue part with
    | some v => .ok { st with tensao := some v }
    | none => .error ()
  else if containsSub kCorrente part then
    match floatValue part with
    | some v => .ok { st with corrente := some v }
    | none => .error ()
  else if containsSub kRotacao part then
    match intValue part with
    | some v => .ok { st with rotacao := some v }
    | none => .error ()
  else .ok st

/-- The whole `for part in parts` loop, short-circuiting on an exception. -/
def processParts : ParseState → List (List Char) → Except Unit ParseState
  | st, [] => .ok st
  | st, part :: parts =>
    match processPart st part with
    | .ok st2 => processParts st2 parts
    | .error e => .error e

/-- One row of the CSV log: the four successfully parsed fields (line 240). -/
structure Record where
  timestamp_esp32 : ℤ
  tensao : ℚ
  corrente : ℚ
  rotacao : ℤ
deriving DecidableEq

/-- The completeness test of line 232: a `Record` exactly when all four
variables are non-`None`. -/
def extractRecord (st : ParseState) : Option Record :=
  match st with
  | ⟨some t, some v, some c, some r⟩ => some ⟨t, v, c, r⟩
  | _ => none

/-- Outcome of processing one datagram inside the inner `try` (lines 212-243). -/
inductive MsgOutcome
  /-- An exception was raised and caught at line 248: no row, no field check. -/
  | errorOut
  /-- Line 243: at least one field is `None`; warn, write nothing. -/
  | malformed
  /-- Line 240: all four fields parsed; this row is appended. -/
  | record (r : Record)
deriving DecidableEq

/-- The comma segments of a datagram after `decode`/`strip` (lines 213, 216). -/
def msgParts (msg : List Char) : List (List Char) :=
  splitOnChar ',' (stripSpaces msg)

/-- Full processing of one received datagram (lines 213-243, excluding the
tracker/log side effects): strip, split on commas, run the field loop,
then test completeness. -/
def processMessage (msg : List Char) : MsgOutcome :=
  match processParts initState (msgParts msg) with
  | .error _ => .errorOut
  | .ok st =>
    match extractRecord st with
    | some r => .record r
    | none => .malformed

/-- Mutable loop state: the out-of-order tracker (line 202, sentinel `-1`)
and the CSV log contents (rows appended at line 240). -/
structure LoopState where
  last_received_timestamp_esp32 : ℤ
  log : List Record
deriving DecidableEq

/-- State on entering the loop: tracker `-1` (line 202), no rows yet written
by this session. -/
def initLoopState : LoopState := ⟨-1, []⟩

/-- Observable console / file / network effects of the script. -/
inductive Action
  /-- `send_command_to_esp32` (a datagram to the command port). -/
  | sendCmd (cmd : List Char)
  /-- `sock_data.close()` (line 258). -/
  | closeData
  /-- Line 235: out-of-order / duplicate packet warning. -/
  | warnOutOfOrder (newTs oldTs : ℤ)
  /-- Line 243: incomplete / malformed message warning. -/
  | warnMalformed
  /-- Lines 249-250: error report for an exception caught in the loop. -/
  | warnProcError
  /-- Line 246: no data received within the 1-second timeout. -/
  | warnNoData
  /-- Line 240: one row appended to the CSV file. -/
  | appendRow (r : Record)
deriving DecidableEq

/-- Lines 232-243 (given the receive succeeded): on a complete record, warn
if the timestamp did not increase and a previous one exists (line 234),
update the tracker (line 236), append the row (line 240); on an incomplete
record warn only (line 243); an exception reaches line 248. -/
def stepIteration (s : LoopState) (msg : List Char) : LoopState × List Action :=
  match processMessage msg with
  | .errorOut => (s, [.warnProcError])
  | .malformed => (s, [.warnMalformed])
  | .record r =>
    ({ last_received_timestamp_esp32 := r.timestamp_esp32, log := s.log ++ [r] },
     (if r.timestamp_esp32 ≤ s.last_received_timestamp_esp32 ∧
         s.last_received_timestamp_esp32 ≠ -1 then
        [.warnOutOfOrder r.timestamp_esp32 s.last_received_timestamp_esp32]
      else []) ++ [.appendRow r])

/-- What one `recvfrom` attempt yields: a datagram, or `socket.timeout`. -/
inductive RecvEvent
  /-- `socket.timeout` caught at line 245. -/
  | timeout
  /-- A datagram whose decoded payload is `msg`. -/
  | datagram (msg : List Char)

/-- The `while True` body (lines 211-250) run over a finite sequence of
receive events, accumulating state and observable actions. -/
def runLoop : LoopState → List RecvEvent → LoopState × List Action
  | s, [] => (s, [])
  | s, .timeout :: evs =>
    ((runLoop s evs).1, .warnNoData :: (runLoop s evs).2)
  | s, .datagram m :: evs =>
    ((runLoop (stepIteration s m).1 evs).1,
     (stepIteration s m).2 ++ (runLoop (stepIteration s m).1 evs).2)

/-- How control left the session loop: the safety-deadline `break`
(line 209), `KeyboardInterrupt` (line 252), or an unhandled exception
reaching line 254. -/
inductive ExitReason
  | deadline
  | keyboardInterrupt
  | generalError

/-- `ACQUISITION_DURATION_SECONDS = 20` (line 13). -/
def ACQUISITION_DURATION_SECONDS : ℤ := 20

/-- The start command `"START_ACQUISITION:<duration_ms>"` (lines 192-193). -/
def startCmd : List Char := "START_ACQUISITION:20000".data

/-- The stop command sent in the `finally` block (line 257). -/
def stopCmd : List Char := "STOP_ACQUISITION".data

/-- The session from entering the `try` at line 204 to the end of `main`:
the loop runs over the received events until it exits for `reason`; the
`except` clauses at lines 252-255 only print, and the `finally` block
(lines 256-259) sends `STOP_ACQUISITION` and closes the data socket exactly
once, on every exit path.  The preceding start command (line 194) is
included so that command traffic is complete. -/
def runMain (evs : List RecvEvent) (_reason : ExitReason) : List Action :=
  Action.sendCmd startCmd ::
    ((runLoop initLoopState evs).2 ++ [Action.sendCmd stopCmd, Action.closeData])

/-- The safety check of line 207: `elapsed > ACQUISITION_DURATION_SECONDS + 5`.
Wall-clock instants are modelled as exact rationals. -/
def safetyDeadlineExceeded (elapsed : ℚ) : Bool :=
  decide (elapsed > (ACQUISITION_DURATION_SECONDS : ℚ) + 5)

/-- Start instant of the `n`-th loop iteration, measured from loop entry,
when iteration `k` takes `dur k` seconds (a receive waits at most the
1-second timeout of line 186; processing time is neglected). -/
def iterStart (dur : ℕ → ℚ) : ℕ → ℚ
  | 0 => 0
  | n + 1 => iterStart dur n + dur n

/-! ## Characters that may occur in a well-formed numeric value -/

/-- Characters of decimal numeric literals: digits, sign, point, exponent
marker.  Every value accepted by `pyInt`/`pyFloat` without surrounding
whitespace is made of these. -/
def okChar (c : Char) : Prop :=
  c.isDigit = true ∨ c = '+' ∨ c = '-' ∨ c = '.' ∨ c = 'e' ∨ c = 'E'

instance (c : Char) : Decidable (okChar c) := by
  unfold okChar
  infer_instance

/-- A well-formed value string: every character is a numeric-literal character. -/
def okChars (l : List Char) : Prop := ∀ c ∈ l, okChar c

instance (l : List Char) : Decidable (okChars l) :=
  List.decidableBAll okChar l

/-! ## The effect of one segment on the extraction state -/

/-- The field a segment writes to, if any. -/
inductive Fld
  | tempo
  | tensao
  | corrente
  | rotacao
deriving DecidableEq

/-- Abstract effect of one `for`-loop iteration: do nothing, raise, or set
one field to a parsed value. -/
inductive Eff
  | noop
  | err
  | setT (v : ℤ)
  | setS (v : ℚ)
  | setC (v : ℚ)
  | setR (v : ℤ)
deriving DecidableEq

/-- Apply an abstract effect to the extraction state. -/
def applyEff : Eff → ParseState → Except Unit ParseState
  | .noop, st => .ok st
  | .err, _ => .error ()
  | .setT v, st => .ok { st with timestamp_esp32 := some v }
  | .setS v, st => .ok { st with tensao := some v }
  | .setC v, st => .ok { st with corrente := some v }
  | .setR v, st => .ok { st with rotacao := some v }

/-- The effect a given segment has (same decision chain as `processPart`). -/
def effOf (part : List Char) : Eff :=
  if containsSub kTempo part then
    match intValue part with
    | some v => .setT v
    | none => .err
  else if containsSub kTensao part then
    match floatValue part with
    | some v => .setS v
    | none => .err
  else if containsSub kCorrente part then
    match floatValue part with
    | some v => .setC v
    | none => .err
  else if containsSub kRotacao part then
    match intValue part with
    | some v => .setR v
    | none => .err
  else .noop

/-- Which field an effect writes. -/
def effFld : Eff → Option Fld
  | .noop => none
  | .err => none
  | .setT _ => some .tempo
  | .setS _ => some .tensao
  | .setC _ => some .corrente
  | .setR _ => some .rotacao

/-- Two segments may be reordered when they do not write the same field. -/
def EffCompat (p q : List Char) : Prop :=
  effFld (effOf p) = none ∨ effFld (effOf q) = none ∨
    effFld (effOf p) ≠ effFld (effOf q)

/-- The datagram does not contain at least one of the four key markers, so
the corresponding extraction variable can never be assigned. -/
def missingKey (msg : List Char) : Prop :=
  containsSub kTempo msg = false ∨ containsSub kTensao msg = false ∨
    containsSub kCorrente msg = false ∨ containsSub kRotacao msg = false

instance (msg : List Char) : Decidable (missingKey msg) := by
  unfold missingKey
  infer_instance

/-- A segment containing none of the four key markers: the `for`-loop body
falls through all four `elif` tests on it. -/
def noMarker (p : List Char) : Prop :=
  containsSub kTempo p = false ∧ containsSub kTensao p = false ∧
    containsSub kCorrente p = false ∧ containsSub kRotacao p = false

instance (p : List Char) : Decidable (noMarker p) := by
  unfold noMarker
  infer_instance

/-- The four canonical segments `Tempo_ms:<a>`, `Tensao:<b>`, `Corrente:<c>`,
`Rotacao:<d>`. -/
def canonParts (a b c d : List Char) : List (List Char) :=
  [kTempo ++ a, kTensao ++ b, kCorrente ++ c, kRotacao ++ d]

/-- The canonical well-formed datagram, the four segments joined by commas. -/
def canonMsg (a b c d : List Char) : List Char :=
  joinComma (canonParts a b c d)

/-! ## Helper lemmas: substring search -/

theorem isPrefixOfL_iff {pat l : List Char} : isPrefixOfL pat l = true ↔ pat <+: l := by
  induction pat generalizing l with
  | nil => simp [isPrefixOfL, List.nil_prefix]
  | cons a as ih =>
    cases l with
    | nil => simp [isPrefixOfL]
    | cons b bs =>
      simp only [isPrefixOfL, Bool.and_eq_true, decide_eq_true_eq, ih,
        List.cons_prefix_cons]

theorem containsSub_iff {pat l : List Char} : containsSub pat l = true ↔ pat <:+: l := by
  induction l with
  | nil =>
    simp [containsSub, isPrefixOfL_iff, List.prefix_nil, List.infix_nil]
  | cons a rest ih =>
    simp only [containsSub, Bool.or_eq_true, isPrefixOfL_iff, ih]
    exact (List.infix_cons_iff).symm

theorem containsSub_self_append (pat tail : List Char) :
    containsSub pat (pat ++ tail) = true :=
  containsSub_iff.mpr (List.prefix_append pat tail).isInfix

theorem containsSub_false_of_missing {pat l : List Char} (c : Char)
    (hc : c ∈ pat) (hl : c ∉ l) : containsSub pat l = false := by
  rw [Bool.eq_false_iff]
  intro h
  exact hl ((containsSub_iff.mp h).subset hc)

theorem containsSub_false_mono {pat l sub : List Char} (hsub : sub <:+: l)
    (h : containsSub pat l = false) : containsSub pat sub = false := by
  rw [Bool.eq_false_iff] at h ⊢
  intro hc
  exact h (containsSub_iff.mpr ((containsSub_iff.mp hc).trans hsub))

/-! ## Helper lemmas: splitting, joining, stripping -/

theorem splitOnChar_not_mem {c : Char} {l : List Char} (h : c ∉ l) :
    splitOnChar c l = [l] := by
  induction l with
  | nil => rfl
  | cons x xs ih =>
    have hx : ¬x = c := fun he => h (he ▸ List.mem_cons_self x xs)
    have hxs : c ∉ xs := fun hm => h (List.mem_cons_of_mem _ hm)
    simp [splitOnChar, hx, ih hxs]

theorem splitOnChar_append {c : Char} {l₁ l₂ : List Char} (h : c ∉ l₁) :
    splitOnChar c (l₁ ++ c :: l₂) = l₁ :: splitOnChar c l₂ := by
  induction l₁ with
  | nil => simp [splitOnChar]
  | cons x xs ih =>
    have hx : ¬x = c := fun he => h (he ▸ List.mem_cons_self x xs)
    have hxs : c ∉ xs := fun hm => h (List.mem_cons_of_mem _ hm)
    simp [splitOnChar, hx, ih hxs]

theorem splitOnChar_shape (c : Char) (l : List Char) :
    ∃ h t, splitOnChar c l = h :: t ∧ h <+: l ∧ ∀ p ∈ t, p <:+: l := by
  induction l with
  | nil => exact ⟨[], [], rfl, List.nil_prefix, by simp⟩
  | cons x xs ih =>
    obtain ⟨h, t, heq, hpre, htail⟩ := ih
    by_cases hx : x = c
    · refine ⟨[], splitOnChar c xs, by simp [splitOnChar, hx], List.nil_prefix, ?_⟩
      intro p hp
      rw [heq] at hp
      rcases List.mem_cons.mp hp with hp | hp
      · exact (hp ▸ hpre).isInfix.trans (List.infix_cons (List.infix_refl xs))
      · exact (htail p hp).trans (List.infix_cons (List.infix_refl xs))
    · refine ⟨x :: h, t, by simp [splitOnChar, hx, heq], ?_, ?_⟩
      · exact List.cons_prefix_cons.mpr ⟨rfl, hpre⟩
      · intro p hp
        exact (htail p hp).trans (List.infix_cons (List.infix_refl xs))

theorem mem_splitOnChar_within {c : Char} {l p : List Char}
    (hp : p ∈ splitOnChar c l) : p <:+: l := by
  obtain ⟨h, t, heq, hpre, htail⟩ := splitOnChar_shape c l
  rw [heq] at hp
  rcases List.mem_cons.mp hp with hp | hp
  · exact (hp ▸ hpre).isInfix
  · exact htail p hp

theorem joinComma_split {l : List (List Char)} (hne : l ≠ [])
    (h : ∀ p ∈ l, ',' ∉ p) : splitOnChar ',' (joinComma l) = l := by
  induction l with
  | nil => exact absurd rfl hne
  | cons p ps ih =>
    cases ps with
    | nil => exact splitOnChar_not_mem (h p (List.mem_cons_self p []))
    | cons q qs =>
      have hstep : joinComma (p :: q :: qs) = p ++ ',' :: joinComma (q :: qs) := rfl
      rw [hstep, splitOnChar_append (h p (List.mem_cons_self _ _))]
      rw [ih (by simp) (fun r hr => h r (List.mem_cons_of_mem _ hr))]

theorem mem_joinComma {l : List (List Char)} {ch : Char}
    (h : ch ∈ joinComma l) : (∃ p ∈ l, ch ∈ p) ∨ ch = ',' := by
  induction l with
  | nil => simp [joinComma] at h
  | cons p ps ih =>
    cases ps with
    | nil =>
      exact Or.inl ⟨p, List.mem_cons_self p [], h⟩
    | cons q qs =>
      have hstep : joinComma (p :: q :: qs) = p ++ ',' :: joinComma (q :: qs) := rfl
      rw [hstep, List.mem_append] at h
      rcases h with h | h
      · exact Or.inl ⟨p, List.mem_cons_self _ _, h⟩
      · rcases List.mem_cons.mp h with h | h
        · exact Or.inr h
        · rcases ih h with ⟨r, hr, hcr⟩ | h
          · exact Or.inl ⟨r, List.mem_cons_of_mem _ hr, hcr⟩
          · exact Or.inr h

theorem stripSpaces_eq_self {l : List Char} (h : ∀ ch ∈ l, isSpace ch = false) :
    stripSpaces l = l := by
  have h1 : l.dropWhile isSpace = l := by
    cases l with
    | nil => rfl
    | cons x xs =>
      rw [List.dropWhile_cons_of_neg]
      simp [h x (List.mem_cons_self x xs)]
  have h2 : l.reverse.dropWhile isSpace = l.reverse := by
    cases hr : l.reverse with
    | nil => rfl
    | cons x xs =>
      rw [List.dropWhile_cons_of_neg]
      have hx : x ∈ l.reverse := hr ▸ List.mem_cons_self x xs
      simp [h x (List.mem_reverse.mp hx)]
  rw [stripSpaces, h1, h2, List.reverse_reverse]

theorem stripSpaces_within (l : List Char) : stripSpaces l <:+: l := by
  have h1 : l.dropWhile isSpace <:+ l := List.dropWhile_suffix isSpace
  have h2 : (l.dropWhile isSpace).reverse.dropWhile isSpace <:+
      (l.dropWhile isSpace).reverse := List.dropWhile_suffix isSpace
  have h3 := List.reverse_prefix.mpr h2
  rw [List.reverse_reverse] at h3
  unfold stripSpaces
  exact h3.isInfix.trans h1.isInfix

theorem okChars_not_mem {l : List Char} (h : okChars l) {c : Char}
    (hc : ¬okChar c) : c ∉ l :=
  fun hm => hc (h c hm)

theorem okChar_not_space {c : Char} (h : okChar c) : isSpace c = false := by
  rcases h with h | rfl | rfl | rfl | rfl | rfl
  · have h0 : ('0' : Char) ≤ c := by
      have := h
      unfold Char.isDigit at this
      exact (Bool.and_eq_true _ _).mp this |>.1 |> of_decide_eq_true
    rw [Bool.eq_false_iff]
    intro hs
    unfold isSpace at hs
    rcases Bool.or_eq_true _ _ |>.mp hs with hs | hs
    case _ =>
      rcases Bool.or_eq_true _ _ |>.mp hs with hs | hs
      case _ =>
        rcases Bool.or_eq_true _ _ |>.mp hs with hs | hs
        case _ =>
          rcases Bool.or_eq_true _ _ |>.mp hs with hs | hs
          case _ =>
            rcases Bool.or_eq_true _ _ |>.mp hs with hs | hs <;>
              (rw [of_decide_eq_true hs] at h0; revert h0; decide)
          case _ => rw [of_decide_eq_true hs] at h0; revert h0; decide
        case _ => rw [of_decide_eq_true hs] at h0; revert h0; decide
      case _ => rw [of_decide_eq_true hs] at h0; revert h0; decide
    case _ => rw [of_decide_eq_true hs] at h0; revert h0; decide
  all_goals decide

theorem processPart_eq_applyEff (st : ParseState) (part : List Char) :
    processPart st part = applyEff (effOf part) st := by
  unfold processPart effOf
  by_cases h1 : containsSub kTempo part = true
  · simp only [h1, if_true]
    cases intValue part <;> rfl
  · simp only [h1, if_false, Bool.false_eq_true]
    by_cases h2 : containsSub kTensao part = true
    · simp only [h2, if_true]
      cases floatValue part <;> rfl
    · simp only [h2, if_false, Bool.false_eq_true]
      by_cases h3 : containsSub kCorrente part = true
      · simp only [h3, if_true]
        cases floatValue part <;> rfl
      · simp only [h3, if_false, Bool.false_eq_true]
        by_cases h4 : containsSub kRotacao part = true
        · simp only [h4, if_true]
          cases intValue part <;> rfl
        · simp only [h4, if_false, Bool.false_eq_true]
          rfl

/-- Effects writing different fields (or not writing) commute. -/
theorem applyEff_comm (e₁ e₂ : Eff)
    (h : effFld e₁ = none ∨ effFld e₂ = none ∨ effFld e₁ ≠ effFld e₂)
    (st : ParseState) :
    (applyEff e₁ st).bind (applyEff e₂) = (applyEff e₂ st).bind (applyEff e₁) := by
  cases st
  cases e₁ <;> cases e₂ <;>
    first
      | rfl
      | (exfalso; simp [effFld] at h)

theorem processParts_cons_bind (st : ParseState) (x : List Char)
    (parts : List (List Char)) :
    processParts st (x :: parts) =
      (processPart st x).bind fun st2 => processParts st2 parts := by
  cases h : processPart st x <;> simp [processParts, h, Except.bind]

theorem except_bind_congr {m : Except Unit ParseState}
    {f g : ParseState → Except Unit ParseState} (h : ∀ a, f a = g a) :
    m.bind f = m.bind g := by
  cases m with
  | error e => rfl
  | ok a => exact h a

theorem processParts_two (st : ParseState) (a b : List Char)
    (l : List (List Char)) :
    processParts st (a :: b :: l) =
      ((processPart st a).bind fun s => processPart s b).bind
        fun s => processParts s l := by
  cases h : processPart st a <;>
    simp [processParts_cons_bind, h, Except.bind]

theorem effCompat_symm {p q : List Char} (h : EffCompat p q) : EffCompat q p := by
  rcases h with h | h | h
  · exact Or.inr (Or.inl h)
  · exact Or.inl h
  · exact Or.inr (Or.inr (Ne.symm h))

/-- The field-extraction loop is invariant under permuting the segments, as
long as no two segments write the same field. -/
theorem processParts_perm {l₁ l₂ : List (List Char)} (hp : List.Perm l₁ l₂)
    (hc : l₁.Pairwise EffCompat) :
    ∀ st, processParts st l₁ = processParts st l₂ := by
  induction hp with
  | nil => intro st; rfl
  | cons x hrest ih =>
    intro st
    rw [processParts_cons_bind, processParts_cons_bind]
    exact except_bind_congr fun s => ih hc.of_cons s
  | swap x y l =>
    intro st
    rw [processParts_two, processParts_two]
    have hyx : EffCompat y x :=
      (List.pairwise_cons.mp hc).1 x (List.mem_cons_self x l)
    have hcomm : ((processPart st y).bind fun s => processPart s x) =
        (processPart st x).bind fun s => processPart s y := by
      simp only [processPart_eq_applyEff]
      exact applyEff_comm _ _ hyx st
    rw [hcomm]
  | trans h₁ h₂ ih₁ ih₂ =>
    intro st
    have hc₂ := (h₁.pairwise_iff fun hpq => effCompat_symm hpq).mp hc
    rw [ih₁ hc st, ih₂ hc₂ st]

/-! ## Field preservation: a segment only writes the field whose key it contains -/

theorem processPart_keeps_timestamp {st st2 : ParseState} {part : List Char}
    (hk : containsSub kTempo part = false) (h : processPart st part = .ok st2) :
    st2.timestamp_esp32 = st.timestamp_esp32 := by
  unfold processPart at h
  rw [hk] at h
  simp only [Bool.false_eq_true, if_false] at h
  repeat' split at h
  all_goals cases h
  all_goals rfl

theorem processPart_keeps_tensao {st st2 : ParseState} {part : List Char}
    (hk : containsSub kTensao part = false) (h : processPart st part = .ok st2) :
    st2.tensao = st.tensao := by
  unfold processPart at h
  rw [hk] at h
  simp only [Bool.false_eq_true, if_false] at h
  repeat' split at h
  all_goals cases h
  all_goals rfl

theorem processPart_keeps_corrente {st st2 : ParseState} {part : List Char}
    (hk : containsSub kCorrente part = false) (h : processPart st part = .ok st2) :
    st2.corrente = st.corrente := by
  unfold processPart at h
  rw [hk] at h
  simp only [Bool.false_eq_true, if_false] at h
  repeat' split at h
  all_goals cases h
  all_goals rfl

theorem processPart_keeps_rotacao {st st2 : ParseState} {part : List Char}
    (hk : containsSub kRotacao part = false) (h : processPart st part = .ok st2) :
    st2.rotacao = st.rotacao := by
  unfold processPart at h
  rw [hk] at h
  simp only [Bool.false_eq_true, if_false] at h
  repeat' split at h
  all_goals cases h
  all_goals rfl

theorem processParts_keeps_timestamp {parts : List (List Char)}
    {st st2 : ParseState} (h : ∀ p ∈ parts, containsSub kTempo p = false)
    (hr : processParts st parts = .ok st2) :
    st2.timestamp_esp32 = st.timestamp_esp32 := by
  induction parts generalizing st with
  | nil => cases hr; rfl
  | cons p ps ih =>
    unfold processParts at hr
    cases hp : processPart st p with
    | error e => rw [hp] at hr; cases hr
    | ok s1 =>
      rw [hp] at hr
      rw [ih (fun q hq => h q (List.mem_cons_of_mem _ hq)) hr]
      exact processPart_keeps_timestamp (h p (List.mem_cons_self _ _)) hp

theorem processParts_keeps_tensao {parts : List (List Char)}
    {st st2 : ParseState} (h : ∀ p ∈ parts, containsSub kTensao p = false)
    (hr : processParts st parts = .ok st2) : st2.tensao = st.tensao := by
  induction parts generalizing st with
  | nil => cases hr; rfl
  | cons p ps ih =>
    unfold processParts at hr
    cases hp : processPart st p with
    | error e => rw [hp] at hr; cases hr
    | ok s1 =>
      rw [hp] at hr
      rw [ih (fun q hq => h q (List.mem_cons_of_mem _ hq)) hr]
      exact processPart_keeps_tensao (h p (List.mem_cons_self _ _)) hp

theorem processParts_keeps_corrente {parts : List (List Char)}
    {st st2 : ParseState} (h : ∀ p ∈ parts, containsSub kCorrente p = false)
    (hr : processParts st parts = .ok st2) : st2.corrente = st.corrente := by
  induction parts generalizing st with
  | nil => cases hr; rfl
  | cons p ps ih =>
    unfold processParts at hr
    cases hp : processPart st p with
    | error e => rw [hp] at hr; cases hr
    | ok s1 =>
      rw [hp] at hr
      rw [ih (fun q hq => h q (List.mem_cons_of_mem _ hq)) hr]
      exact processPart_keeps_corrente (h p (List.mem_cons_self _ _)) hp

theorem processParts_keeps_rotacao {parts : List (List Char)}
    {st st2 : ParseState} (h : ∀ p ∈ parts, containsSub kRotacao p = false)
    (hr : processParts st parts = .ok st2) : st2.rotacao = st.rotacao := by
  induction parts generalizing st with
  | nil => cases hr; rfl
  | cons p ps ih =>
    unfold processParts at hr
    cases hp : processPart st p with
    | error e => rw [hp] at hr; cases hr
    | ok s1 =>
      rw [hp] at hr
      rw [ih (fun q hq => h q (List.mem_cons_of_mem _ hq)) hr]
      exact processPart_keeps_rotacao (h p (List.mem_cons_self _ _)) hp

/-! ## Datagrams missing a required key -/

theorem extractRecord_none {st : ParseState}
    (h : st.timestamp_esp32 = none ∨ st.tensao = none ∨ st.corrente = none ∨
      st.rotacao = none) :
    extractRecord st = none := by
  rcases st with ⟨t, v, c, r⟩
  rcases t with _ | t
  · rfl
  rcases v with _ | v
  · rfl
  rcases c with _ | c
  · rfl
  rcases r with _ | r
  · rfl
  · simp at h

theorem processMessage_missing {msg : List Char} (h : missingKey msg) :
    processMessage msg = .errorOut ∨ processMessage msg = .malformed := by
  unfold processMessage
  cases hr : processParts initState (msgParts msg) with
  | error e => exact Or.inl rfl
  | ok st =>
    right
    have hwithin : ∀ p ∈ msgParts msg, p <:+: msg := fun p hp =>
      (mem_splitOnChar_within hp).trans (stripSpaces_within msg)
    have hnone : extractRecord st = none := by
      rcases h with h | h | h | h
      · exact extractRecord_none (Or.inl (processParts_keeps_timestamp
          (fun p hp => containsSub_false_mono (hwithin p hp) h) hr))
      · exact extractRecord_none (Or.inr (Or.inl (processParts_keeps_tensao
          (fun p hp => containsSub_false_mono (hwithin p hp) h) hr)))
      · exact extractRecord_none (Or.inr (Or.inr (Or.inl
          (processParts_keeps_corrente
            (fun p hp => containsSub_false_mono (hwithin p hp) h) hr))))
      · exact extractRecord_none (Or.inr (Or.inr (Or.inr
          (processParts_keeps_rotacao
            (fun p hp => containsSub_false_mono (hwithin p hp) h) hr))))
    simp only [hnone]

/-! ## Canonical key:value segments -/

theorem intValue_tempoSeg {a : List Char} (ha : ':' ∉ a) :
    intValue (kTempo ++ a) = pyInt a := by
  have h1 : kTempo = "Tempo_ms".data ++ [':'] := by decide
  rw [intValue, h1, List.append_assoc]
  rw [show ([':'] ++ a : List Char) = ':' :: a from rfl]
  rw [splitOnChar_append (by decide), splitOnChar_not_mem ha]
  rfl

theorem floatValue_tensaoSeg {b : List Char} (hb : ':' ∉ b) :
    floatValue (kTensao ++ b) = pyFloat b := by
  have h1 : kTensao = "Tensao".data ++ [':'] := by decide
  rw [floatValue, h1, List.append_assoc]
  rw [show ([':'] ++ b : List Char) = ':' :: b from rfl]
  rw [splitOnChar_append (by decide), splitOnChar_not_mem hb]
  rfl

theorem floatValue_correnteSeg {c : List Char} (hc : ':' ∉ c) :
    floatValue (kCorrente ++ c) = pyFloat c := by
  have h1 : kCorrente = "Corrente".data ++ [':'] := by decide
  rw [floatValue, h1, List.append_assoc]
  rw [show ([':'] ++ c : List Char) = ':' :: c from rfl]
  rw [splitOnChar_append (by decide), splitOnChar_not_mem hc]
  rfl

theorem intValue_rotacaoSeg {d : List Char} (hd : ':' ∉ d) :
    intValue (kRotacao ++ d) = pyInt d := by
  have h1 : kRotacao = "Rotacao".data ++ [':'] := by decide
  rw [intValue, h1, List.append_assoc]
  rw [show ([':'] ++ d : List Char) = ':' :: d from rfl]
  rw [splitOnChar_append (by decide), splitOnChar_not_mem hd]
  rfl

theorem not_mem_keySeg {k v : List Char} {c : Char} (hk : c ∉ k) (hv : c ∉ v) :
    c ∉ k ++ v := by
  intro hm
  rcases List.mem_append.mp hm with h | h
  · exact hk h
  · exact hv h

theorem effOf_tempoSeg (a : List Char) (ha : ':' ∉ a) :
    effOf (kTempo ++ a) =
      match pyInt a with
      | some v => Eff.setT v
      | none => Eff.err := by
  unfold effOf
  rw [containsSub_self_append kTempo a]
  simp only [if_true, intValue_tempoSeg ha]

theorem effOf_tensaoSeg (b : List Char) (hb : okChars b) :
    effOf (kTensao ++ b) =
      match pyFloat b with
      | some v => Eff.setS v
      | none => Eff.err := by
  have h1 : containsSub kTempo (kTensao ++ b) = false :=
    containsSub_false_of_missing 'p' (by decide)
      (not_mem_keySeg (by decide) (okChars_not_mem hb (by decide)))
  unfold effOf
  rw [h1, containsSub_self_append kTensao b]
  simp only [Bool.false_eq_true, if_false, if_true,
    floatValue_tensaoSeg (okChars_not_mem hb (by decide))]

theorem effOf_correnteSeg (c : List Char) (hc : okChars c) :
    effOf (kCorrente ++ c) =
      match pyFloat c with
      | some v => Eff.setC v
      | none => Eff.err := by
  have h1 : containsSub kTempo (kCorrente ++ c) = false :=
    containsSub_false_of_missing 'p' (by decide)
      (not_mem_keySeg (by decide) (okChars_not_mem hc (by decide)))
  have h2 : containsSub kTensao (kCorrente ++ c) = false :=
    containsSub_false_of_missing 's' (by decide)
      (not_mem_keySeg (by decide) (okChars_not_mem hc (by decide)))
  unfold effOf
  rw [h1, h2, containsSub_self_append kCorrente c]
  simp only [Bool.false_eq_true, if_false, if_true,
    floatValue_correnteSeg (okChars_not_mem hc (by decide))]

theorem effOf_rotacaoSeg (d : List Char) (hd : okChars d) :
    effOf (kRotacao ++ d) =
      match pyInt d with
      | some v => Eff.setR v
      | none => Eff.err := by
  have h1 : containsSub kTempo (kRotacao ++ d) = false :=
    containsSub_false_of_missing 'p' (by decide)
      (not_mem_keySeg (by decide) (okChars_not_mem hd (by decide)))
  have h2 : containsSub kTensao (kRotacao ++ d) = false :=
    containsSub_false_of_missing 's' (by decide)
      (not_mem_keySeg (by decide) (okChars_not_mem hd (by decide)))
  have h3 : containsSub kCorrente (kRotacao ++ d) = false :=
    containsSub_false_of_missing 'C' (by decide)
      (not_mem_keySeg (by decide) (okChars_not_mem hd (by decide)))
  unfold effOf
  rw [h1, h2, h3, containsSub_self_append kRotacao d]
  simp only [Bool.false_eq_true, if_false, if_true,
    intValue_rotacaoSeg (okChars_not_mem hd (by decide))]

theorem canonParts_comma_free {a b c d : List Char} (ha : okChars a)
    (hb : okChars b) (hc : okChars c) (hd : okChars d) :
    ∀ p ∈ canonParts a b c d, ',' ∉ p := by
  intro p hp
  simp only [canonParts, List.mem_cons, List.not_mem_nil, or_false] at hp
  rcases hp with rfl | rfl | rfl | rfl
  · exact not_mem_keySeg (by decide) (okChars_not_mem ha (by decide))
  · exact not_mem_keySeg (by decide) (okChars_not_mem hb (by decide))
  · exact not_mem_keySeg (by decide) (okChars_not_mem hc (by decide))
  · exact not_mem_keySeg (by decide) (okChars_not_mem hd (by decide))

theorem canonParts_no_space {a b c d : List Char} (ha : okChars a)
    (hb : okChars b) (hc : okChars c) (hd : okChars d) :
    ∀ p ∈ canonParts a b c d, ∀ ch ∈ p, isSpace ch = false := by
  intro p hp ch hch
  simp only [canonParts, List.mem_cons, List.not_mem_nil, or_false] at hp
  rcases hp with rfl | rfl | rfl | rfl
  · rcases List.mem_append.mp hch with h | h
    · exact (show ∀ x ∈ kTempo, isSpace x = false by decide) ch h
    · exact okChar_not_space (ha ch h)
  · rcases List.mem_append.mp hch with h | h
    · exact (show ∀ x ∈ kTensao, isSpace x = false by decide) ch h
    · exact okChar_not_space (hb ch h)
  · rcases List.mem_append.mp hch with h | h
    · exact (show ∀ x ∈ kCorrente, isSpace x = false by decide) ch h
    · exact okChar_not_space (hc ch h)
  · rcases List.mem_append.mp hch with h | h
    · exact (show ∀ x ∈ kRotacao, isSpace x = false by decide) ch h
    · exact okChar_not_space (hd ch h)

theorem msgParts_canon {a b c d : List Char} (ha : okChars a) (hb : okChars b)
    (hc : okChars c) (hd : okChars d) :
    msgParts (canonMsg a b c d) = canonParts a b c d := by
  unfold msgParts canonMsg
  have hns : ∀ ch ∈ joinComma (canonParts a b c d), isSpace ch = false := by
    intro ch hch
    rcases mem_joinComma hch with ⟨p, hp, hchp⟩ | rfl
    · exact canonParts_no_space ha hb hc hd p hp ch hchp
    · decide
  rw [stripSpaces_eq_self hns]
  exact joinComma_split (by simp [canonParts]) (canonParts_comma_free ha hb hc hd)

theorem processParts_canon {a b c d : List Char} (ha : okChars a)
    (hb : okChars b) (hc : okChars c) (hd : okChars d) {t r : ℤ} {v i : ℚ}
    (hia : pyInt a = some t) (hfb : pyFloat b = some v)
    (hfc : pyFloat c = some i) (hid : pyInt d = some r) :
    processParts initState (canonParts a b c d) =
      .ok ⟨some t, some v, some i, some r⟩ := by
  have f1 : effOf (kTempo ++ a) = Eff.setT t := by
    rw [effOf_tempoSeg a (okChars_not_mem ha (by decide)), hia]
  have f2 : effOf (kTensao ++ b) = Eff.setS v := by
    rw [effOf_tensaoSeg b hb, hfb]
  have f3 : effOf (kCorrente ++ c) = Eff.setC i := by
    rw [effOf_correnteSeg c hc, hfc]
  have f4 : effOf (kRotacao ++ d) = Eff.setR r := by
    rw [effOf_rotacaoSeg d hd, hid]
  unfold canonParts
  simp only [processParts, processPart_eq_applyEff, f1, f2, f3, f4, applyEff]

theorem effFld_tempoSeg {a : List Char} (ha : okChars a) :
    effFld (effOf (kTempo ++ a)) = none ∨
      effFld (effOf (kTempo ++ a)) = some Fld.tempo := by
  rw [effOf_tempoSeg a (okChars_not_mem ha (by decide))]
  cases pyInt a <;> simp [effFld]

theorem effFld_tensaoSeg {b : List Char} (hb : okChars b) :
    effFld (effOf (kTensao ++ b)) = none ∨
      effFld (effOf (kTensao ++ b)) = some Fld.tensao := by
  rw [effOf_tensaoSeg b hb]
  cases pyFloat b <;> simp [effFld]

theorem effFld_correnteSeg {c : List Char} (hc : okChars c) :
    effFld (effOf (kCorrente ++ c)) = none ∨
      effFld (effOf (kCorrente ++ c)) = some Fld.corrente := by
  rw [effOf_correnteSeg c hc]
  cases pyFloat c <;> simp [effFld]

theorem effFld_rotacaoSeg {d : List Char} (hd : okChars d) :
    effFld (effOf (kRotacao ++ d)) = none ∨
      effFld (effOf (kRotacao ++ d)) = some Fld.rotacao := by
  rw [effOf_rotacaoSeg d hd]
  cases pyInt d <;> simp [effFld]

theorem effCompat_of_flds {p q : List Char} {f g : Fld}
    (hp : effFld (effOf p) = none ∨ effFld (effOf p) = some f)
    (hq : effFld (effOf q) = none ∨ effFld (effOf q) = some g)
    (hfg : f ≠ g) : EffCompat p q := by
  rcases hp with hp | hp
  · exact Or.inl hp
  rcases hq with hq | hq
  · exact Or.inr (Or.inl hq)
  · refine Or.inr (Or.inr ?_)
    rw [hp, hq]
    simp [hfg]

theorem canonParts_pairwise {a b c d : List Char} (ha : okChars a)
    (hb : okChars b) (hc : okChars c) (hd : okChars d) :
    (canonParts a b c d).Pairwise EffCompat := by
  unfold canonParts
  refine List.Pairwise.cons ?_ (List.Pairwise.cons ?_
    (List.Pairwise.cons ?_ (List.Pairwise.cons ?_ List.Pairwise.nil)))
  · intro q hq
    simp only [List.mem_cons, List.not_mem_nil, or_false] at hq
    rcases hq with rfl | rfl | rfl
    · exact effCompat_of_flds (effFld_tempoSeg ha) (effFld_tensaoSeg hb) (by simp)
    · exact effCompat_of_flds (effFld_tempoSeg ha) (effFld_correnteSeg hc) (by simp)
    · exact effCompat_of_flds (effFld_tempoSeg ha) (effFld_rotacaoSeg hd) (by simp)
  · intro q hq
    simp only [List.mem_cons, List.not_mem_nil, or_false] at hq
    rcases hq with rfl | rfl
    · exact effCompat_of_flds (effFld_tensaoSeg hb) (effFld_correnteSeg hc) (by simp)
    · exact effCompat_of_flds (effFld_tensaoSeg hb) (effFld_rotacaoSeg hd) (by simp)
  · intro q hq
    simp only [List.mem_cons, List.not_mem_nil, or_false] at hq
    rcases hq with rfl
    exact effCompat_of_flds (effFld_correnteSeg hc) (effFld_rotacaoSeg hd) (by simp)
  · intro q hq
    simp at hq

theorem effOf_noMarker {p : List Char} (h : noMarker p) : effOf p = .noop := by
  unfold effOf
  rw [h.1, h.2.1, h.2.2.1, h.2.2.2]
  simp

/-! ## Actions emitted by the loop -/

theorem stepIteration_actions (s : LoopState) (m : List Char) :
    ∀ a ∈ (stepIteration s m).2,
      (∀ cmd, a ≠ Action.sendCmd cmd) ∧ a ≠ Action.closeData := by
  unfold stepIteration
  cases processMessage m with
  | errorOut =>
    intro a ha
    simp only [List.mem_singleton] at ha
    subst ha
    exact ⟨fun cmd => by simp, by simp⟩
  | malformed =>
    intro a ha
    simp only [List.mem_singleton] at ha
    subst ha
    exact ⟨fun cmd => by simp, by simp⟩
  | record r =>
    intro a ha
    simp only [List.mem_append] at ha
    rcases ha with ha | ha
    · split at ha
      · simp only [List.mem_singleton] at ha
        subst ha
        exact ⟨fun cmd => by simp, by simp⟩
      · simp at ha
    · simp only [List.mem_singleton] at ha
      subst ha
      exact ⟨fun cmd => by simp, by simp⟩

theorem runLoop_actions (s : LoopState) (evs : List RecvEvent) :
    ∀ a ∈ (runLoop s evs).2,
      (∀ cmd, a ≠ Action.sendCmd cmd) ∧ a ≠ Action.closeData := by
  induction evs generalizing s with
  | nil => simp [runLoop]
  | cons ev evs ih =>
    cases ev with
    | timeout =>
      intro a ha
      simp only [runLoop, List.mem_cons] at ha
      rcases ha with rfl | ha
      · exact ⟨fun cmd => by simp, by simp⟩
      · exact ih s a ha
    | datagram m =>
      intro a ha
      simp only [runLoop, List.mem_append] at ha
      rcases ha with ha | ha
      · exact stepIteration_actions s m a ha
      · exact ih (stepIteration s m).1 a ha

theorem iterStart_const_one (n : ℕ) : iterStart (fun _ => 1) n = n := by
  induction n with
  | zero => rfl
  | succ k ih =>
    show iterStart (fun _ => 1) k + 1 = ((k + 1 : ℕ) : ℚ)
    rw [ih]
    push_cast
    ring

/-! ## Claims -/

/-- C1: for every received datagram consisting of the four required keys with
well-formed numeric values, the four fields are parsed with the specified
numeric semantics (`Tempo_ms` as integer, `Tensao`/`Corrente` as floats,
`Rotacao` as integer) and appended unchanged as one row to the log. -/
theorem C1_valid_datagram_parsed_and_appended (a b c d : List Char)
    (ha : okChars a) (hb : okChars b) (hc : okChars c) (hd : okChars d)
    (t r : ℤ) (v i : ℚ)
    (hia : pyInt a = some t) (hfb : pyFloat b = some v)
    (hfc : pyFloat c = some i) (hid : pyInt d = some r) :
    processMessage (canonMsg a b c d) = .record ⟨t, v, i, r⟩ ∧
    ∀ s : LoopState,
      (stepIteration s (canonMsg a b c d)).1.log = s.log ++ [⟨t, v, i, r⟩] := by
  have hm : processMessage (canonMsg a b c d) = .record ⟨t, v, i, r⟩ := by
    unfold processMessage
    rw [msgParts_canon ha hb hc hd, processParts_canon ha hb hc hd hia hfb hfc hid]
    rfl
  refine ⟨hm, fun s => ?_⟩
  simp only [stepIteration, hm]

/-- Witness for C1 at the spec's example: the datagram
`Tempo_ms:120,Tensao:12.50,Corrente:0.75,Rotacao:305` yields the appended
row `120, 12.5, 0.75, 305` (`12.5 = 25/2`, `0.75 = 3/4`). -/
theorem C1_witness :
    canonMsg "120".data "12.50".data "0.75".data "305".data =
      "Tempo_ms:120,Tensao:12.50,Corrente:0.75,Rotacao:305".data ∧
    processMessage "Tempo_ms:120,Tensao:12.50,Corrente:0.75,Rotacao:305".data =
      .record ⟨120, Rat.divInt 25 2, Rat.divInt 3 4, 305⟩ ∧
    (stepIteration initLoopState
        "Tempo_ms:120,Tensao:12.50,Corrente:0.75,Rotacao:305".data).1.log =
      [⟨120, Rat.divInt 25 2, Rat.divInt 3 4, 305⟩] := by
  have hmsg : canonMsg "120".data "12.50".data "0.75".data "305".data =
      "Tempo_ms:120,Tensao:12.50,Corrente:0.75,Rotacao:305".data := by decide
  have h := C1_valid_datagram_parsed_and_appended
    "120".data "12.50".data "0.75".data "305".data
    (by decide) (by decide) (by decide) (by decide)
    120 305 (Rat.divInt 25 2) (Rat.divInt 3 4)
    (by decide) (by decide) (by decide) (by decide)
  rw [hmsg] at h
  exact ⟨hmsg, h.1, h.2 initLoopState⟩

/-- C2 counterexample: the datagram `Tensao:abc` is missing the `Tempo_ms`
key (among others), and indeed no row is written — but the emitted warning is
the processing-error report of line 249 (since `float("abc")` raises), not
the malformed-message warning of line 243 that the claim requires. -/
theorem C2_counterexample :
    missingKey "Tensao:abc".data ∧
    (stepIteration initLoopState "Tensao:abc".data).1.log = [] ∧
    (stepIteration initLoopState "Tensao:abc".data).2 = [Action.warnProcError] ∧
    Action.warnMalformed ∉ (stepIteration initLoopState "Tensao:abc".data).2 := by
  decide

/-- C2 (amended): for every received datagram missing at least one of the
four required keys, no row is written to the log; and provided processing
the datagram raises no exception, the malformed-message warning is emitted. -/
theorem C2_missing_key_no_row (msg : List Char) (s : LoopState)
    (h : missingKey msg) :
    (stepIteration s msg).1.log = s.log ∧
    (processMessage msg ≠ .errorOut →
      (stepIteration s msg).2 = [Action.warnMalformed]) := by
  rcases processMessage_missing h with hm | hm
  · exact ⟨by simp only [stepIteration, hm], fun hne => absurd hm hne⟩
  · exact ⟨by simp only [stepIteration, hm], fun _ => by simp only [stepIteration, hm]⟩

/-- Witness for C2 at the spec's example: `Tensao:12.50,Corrente:0.75`
(missing two keys) appends no row and emits the malformed warning. -/
theorem C2_witness :
    (stepIteration initLoopState "Tensao:12.50,Corrente:0.75".data).1.log = [] ∧
    (stepIteration initLoopState "Tensao:12.50,Corrente:0.75".data).2 =
      [Action.warnMalformed] := by
  have h := C2_missing_key_no_row "Tensao:12.50,Corrente:0.75".data
    initLoopState (by decide)
  exact ⟨h.1, h.2 (by decide)⟩

/-- C3 counterexample: a record with `Tempo_ms = -1` is accepted and resets
the tracker to the sentinel `-1`; the next accepted record has
`Tempo_ms = -5 ≤ -1`, i.e. a non-increasing transition after the first
accepted record, yet no out-of-order warning is emitted (the code's guard
`last != -1` mistakes the tracked `-1` for "no previous record"). -/
theorem C3_counterexample :
    processMessage "Tempo_ms:-1,Tensao:1.0,Corrente:1.0,Rotacao:1".data =
      .record ⟨-1, 1, 1, 1⟩ ∧
    processMessage "Tempo_ms:-5,Tensao:1.0,Corrente:1.0,Rotacao:1".data =
      .record ⟨-5, 1, 1, 1⟩ ∧
    (stepIteration initLoopState
        "Tempo_ms:-1,Tensao:1.0,Corrente:1.0,Rotacao:1".data).1.log =
      [⟨-1, 1, 1, 1⟩] ∧
    (stepIteration initLoopState
        "Tempo_ms:-1,Tensao:1.0,Corrente:1.0,Rotacao:1".data).1.last_received_timestamp_esp32 = -1 ∧
    ((-5 : ℤ) ≤ -1) ∧
    (stepIteration
      (stepIteration initLoopState
        "Tempo_ms:-1,Tensao:1.0,Corrente:1.0,Rotacao:1".data).1
      "Tempo_ms:-5,Tensao:1.0,Corrente:1.0,Rotacao:1".data).2 =
      [Action.appendRow ⟨-5, 1, 1, 1⟩] ∧
    Action.warnOutOfOrder (-5) (-1) ∉
      (stepIteration
        (stepIteration initLoopState
          "Tempo_ms:-1,Tensao:1.0,Corrente:1.0,Rotacao:1".data).1
        "Tempo_ms:-5,Tensao:1.0,Corrente:1.0,Rotacao:1".data).2 := by
  decide

/-- C3 (amended): for every accepted record, the record is appended and the
tracker is updated to its timestamp; the out-of-order warning is emitted
exactly when the new timestamp is ≤ the tracked one and the tracked value is
not the `-1` sentinel (so a previously accepted record with timestamp `-1`
suppresses the warning for its successor). -/
theorem C3_out_of_order_warning (s : LoopState) (msg : List Char) (r : Record)
    (h : processMessage msg = .record r) :
    (stepIteration s msg).1.log = s.log ++ [r] ∧
    (stepIteration s msg).1.last_received_timestamp_esp32 = r.timestamp_esp32 ∧
    ((r.timestamp_esp32 ≤ s.last_received_timestamp_esp32 ∧
        s.last_received_timestamp_esp32 ≠ -1) →
      (stepIteration s msg).2 =
        [Action.warnOutOfOrder r.timestamp_esp32 s.last_received_timestamp_esp32,
          Action.appendRow r]) ∧
    (¬(r.timestamp_esp32 ≤ s.last_received_timestamp_esp32 ∧
        s.last_received_timestamp_esp32 ≠ -1) →
      (stepIteration s msg).2 = [Action.appendRow r]) := by
  have hstep : stepIteration s msg =
      ({ last_received_timestamp_esp32 := r.timestamp_esp32, log := s.log ++ [r] },
        (if r.timestamp_esp32 ≤ s.last_received_timestamp_esp32 ∧
            s.last_received_timestamp_esp32 ≠ -1 then
          [Action.warnOutOfOrder r.timestamp_esp32 s.last_received_timestamp_esp32]
        else []) ++ [Action.appendRow r]) := by
    unfold stepIteration
    rw [h]
  rw [hstep]
  refine ⟨rfl, rfl, fun hcond => ?_, fun hcond => ?_⟩
  · rw [if_pos hcond]
    rfl
  · rw [if_neg hcond]
    rfl

/-- Witness for C3 (amended): with tracked timestamp `100`, the accepted
record `Tempo_ms:50` is appended, the tracker becomes `50`, and the
out-of-order warning is emitted. -/
theorem C3_witness :
    (stepIteration ⟨100, []⟩
        "Tempo_ms:50,Tensao:1.0,Corrente:1.0,Rotacao:2".data).1.log =
      [⟨50, 1, 1, 2⟩] ∧
    (stepIteration ⟨100, []⟩
        "Tempo_ms:50,Tensao:1.0,Corrente:1.0,Rotacao:2".data).1.last_received_timestamp_esp32 = 50 ∧
    (stepIteration ⟨100, []⟩
        "Tempo_ms:50,Tensao:1.0,Corrente:1.0,Rotacao:2".data).2 =
      [Action.warnOutOfOrder 50 100, Action.appendRow ⟨50, 1, 1, 2⟩] := by
  have h := C3_out_of_order_warning ⟨100, []⟩
    "Tempo_ms:50,Tensao:1.0,Corrente:1.0,Rotacao:2".data ⟨50, 1, 1, 2⟩ (by decide)
  exact ⟨h.1, h.2.1, h.2.2.1 (by decide)⟩

/-- C4: invariant of every loop iteration — a row is appended exactly when
all four fields were extracted from the datagram (the `for`-loop ended
without exception in a state with no `None` field), and the appended row is
that fully-parsed record; otherwise the log is unchanged. -/
theorem C4_row_written_iff_full_parse (s : LoopState) (msg : List Char) :
    (∃ st r, processParts initState (msgParts msg) = .ok st ∧
       extractRecord st = some r ∧
       (stepIteration s msg).1.log = s.log ++ [r]) ∨
    ((stepIteration s msg).1.log = s.log ∧
       ∀ st, processParts initState (msgParts msg) = .ok st →
         extractRecord st = none) := by
  cases hr : processParts initState (msgParts msg) with
  | error e =>
    right
    have hpm : processMessage msg = .errorOut := by
      unfold processMessage
      rw [hr]
    refine ⟨by simp only [stepIteration, hpm], fun st h => ?_⟩
    cases h
  | ok st =>
    cases he : extractRecord st with
    | none =>
      right
      have hpm : processMessage msg = .malformed := by
        unfold processMessage
        rw [hr]
        simp only [he]
      refine ⟨by simp only [stepIteration, hpm], fun st2 h => ?_⟩
      cases h
      exact he
    | some r =>
      left
      have hpm : processMessage msg = .record r := by
        unfold processMessage
        rw [hr]
        simp only [he]
      exact ⟨st, r, rfl, he, by simp only [stepIteration, hpm]⟩

/-- C5 counterexample: the claim says a segment with an unrecognized key
never prevents the remaining fields from being extracted; but appending the
unrecognized-key segment `notTensao:abc` (which contains `Tensao:` as a
substring) to an otherwise valid datagram makes `float("abc")` raise, so the
whole datagram is discarded instead of producing the record. -/
theorem C5_counterexample :
    processMessage "Tempo_ms:120,Tensao:12.50,Corrente:0.75,Rotacao:305".data =
      .record ⟨120, Rat.divInt 25 2, Rat.divInt 3 4, 305⟩ ∧
    processMessage
      "Tempo_ms:120,Tensao:12.50,Corrente:0.75,Rotacao:305,notTensao:abc".data =
      .errorOut := by
  decide

/-- C5 (amended): a segment containing none of the four key markers
(`Tempo_ms:`, `Tensao:`, `Corrente:`, `Rotacao:`) as a substring is ignored —
its presence never changes the result of the field-extraction loop.  (A
segment with an unrecognized key may still contain a marker as a substring;
such a segment is treated as carrying that field and aborts the whole
datagram when its value fails numeric conversion.) -/
theorem C5_markerless_segment_ignored (st : ParseState)
    (l₁ l₂ : List (List Char)) (p : List Char) (h : noMarker p) :
    processParts st (l₁ ++ p :: l₂) = processParts st (l₁ ++ l₂) := by
  induction l₁ generalizing st with
  | nil =>
    rw [List.nil_append, List.nil_append, processParts_cons_bind,
      processPart_eq_applyEff, effOf_noMarker h]
    rfl
  | cons q qs ih =>
    rw [List.cons_append, List.cons_append, processParts_cons_bind,
      processParts_cons_bind]
    exact except_bind_congr fun st2 => ih st2

/-- Witness for C5 (amended): inserting the ignorable segment `foo:bar`
between two segments leaves the extraction result unchanged. -/
theorem C5_witness :
    noMarker "foo:bar".data ∧
    processParts initState
        ["Tempo_ms:120".data, "foo:bar".data, "Rotacao:3".data] =
      processParts initState ["Tempo_ms:120".data, "Rotacao:3".data] :=
  ⟨by decide,
    C5_markerless_segment_ignored initState ["Tempo_ms:120".data]
      ["Rotacao:3".data] "foo:bar".data (by decide)⟩

/-- C6: on every exit path from the session loop (safety deadline, user
interruption, or an unhandled error), exactly one `STOP_ACQUISITION` command
is sent and the data socket is closed exactly once: the action trace of the
whole session contains exactly one stop-send and exactly one close,
whatever was received and however the loop exited. -/
theorem C6_stop_once_close_once (evs : List RecvEvent) (reason : ExitReason) :
    (runMain evs reason).filter (fun a => decide (a = Action.sendCmd stopCmd)) =
      [Action.sendCmd stopCmd] ∧
    (runMain evs reason).filter (fun a => decide (a = Action.closeData)) =
      [Action.closeData] := by
  have hloop := runLoop_actions initLoopState evs
  constructor
  · unfold runMain
    rw [List.filter_cons, List.filter_append]
    have h1 : (decide (Action.sendCmd startCmd = Action.sendCmd stopCmd)) = false := by
      decide
    rw [h1]
    have h2 : (runLoop initLoopState evs).2.filter
        (fun a => decide (a = Action.sendCmd stopCmd)) = [] := by
      rw [List.filter_eq_nil_iff]
      intro a ha
      simp only [decide_eq_true_eq]
      exact (hloop a ha).1 stopCmd
    rw [h2]
    rfl
  · unfold runMain
    rw [List.filter_cons, List.filter_append]
    have h1 : (decide (Action.sendCmd startCmd = Action.closeData)) = false := by
      decide
    rw [h1]
    have h2 : (runLoop initLoopState evs).2.filter
        (fun a => decide (a = Action.closeData)) = [] := by
      rw [List.filter_eq_nil_iff]
      intro a ha
      simp only [decide_eq_true_eq]
      exact (hloop a ha).2
    rw [h2]
    rfl

/-- C7: assuming each iteration takes at most the 1-second receive timeout
and elapsed time grows unboundedly (no Zeno behaviour), the loop reaches an
iteration whose safety-deadline check (line 207) fires — no earlier iteration
fires it, and it happens within the configured 20-second acquisition
duration plus the 5-second margin plus at most one receive-timeout interval
of entering the loop, for every input sequence (a stream of all-timeouts,
i.e. zero datagrams, included). -/
theorem C7_safety_deadline_terminates (dur : ℕ → ℚ)
    (hhi : ∀ n, dur n ≤ 1)
    (hub : ∀ T : ℚ, ∃ n, T < iterStart dur n) :
    ∃ n, safetyDeadlineExceeded (iterStart dur n) = true ∧
      (∀ m < n, safetyDeadlineExceeded (iterStart dur m) = false) ∧
      iterStart dur n ≤ (ACQUISITION_DURATION_SECONDS : ℚ) + 5 + 1 := by
  have hex : ∃ n, safetyDeadlineExceeded (iterStart dur n) = true := by
    obtain ⟨n, hn⟩ := hub ((ACQUISITION_DURATION_SECONDS : ℚ) + 5)
    refine ⟨n, ?_⟩
    unfold safetyDeadlineExceeded
    exact decide_eq_true hn
  refine ⟨Nat.find hex, Nat.find_spec hex, fun m hm => ?_, ?_⟩
  · exact eq_false_of_ne_true (Nat.find_min hex hm)
  · rcases Nat.eq_zero_or_pos (Nat.find hex) with h0 | hpos
    · rw [h0]
      rw [show iterStart dur 0 = 0 from rfl]
      norm_num [ACQUISITION_DURATION_SECONDS]
    · have hlt : Nat.find hex - 1 < Nat.find hex := Nat.sub_lt hpos Nat.one_pos
      have hprev := Nat.find_min hex hlt
      have hprev2 : ¬((ACQUISITION_DURATION_SECONDS : ℚ) + 5 <
          iterStart dur (Nat.find hex - 1)) := by
        intro hgt
        exact hprev (by unfold safetyDeadlineExceeded; exact decide_eq_true hgt)
      push_neg at hprev2
      have hsucc : Nat.find hex = (Nat.find hex - 1) + 1 :=
        (Nat.succ_pred_eq_of_pos hpos).symm
      rw [hsucc]
      rw [show iterStart dur ((Nat.find hex - 1) + 1) =
          iterStart dur (Nat.find hex - 1) + dur (Nat.find hex - 1) from rfl]
      have hd := hhi (Nat.find hex - 1)
      linarith

/-- Witness for C7: with every iteration taking exactly one second (the
all-timeouts schedule: zero datagrams arrive), the loop exits by the bound. -/
theorem C7_witness :
    ∃ n, safetyDeadlineExceeded (iterStart (fun _ => 1) n) = true ∧
      (∀ m < n, safetyDeadlineExceeded (iterStart (fun _ => 1) m) = false) ∧
      iterStart (fun _ => 1) n ≤ (ACQUISITION_DURATION_SECONDS : ℚ) + 5 + 1 :=
  C7_safety_deadline_terminates (fun _ => 1) (fun _ => le_refl 1)
    (fun T => by
      obtain ⟨n, hn⟩ := exists_nat_gt T
      exact ⟨n, by rw [iterStart_const_one]; exact hn⟩)

/-- C8: parsing is insensitive to segment order — for well-formed values,
any permutation of the four canonical `key:value` segments, joined by
commas, processes to the same outcome (in particular the same extracted
record) as the canonical datagram. -/
theorem C8_segment_order_insensitive (a b c d : List Char)
    (ha : okChars a) (hb : okChars b) (hc : okChars c) (hd : okChars d)
    (l : List (List Char)) (hl : List.Perm l (canonParts a b c d)) :
    processMessage (joinComma l) = processMessage (canonMsg a b c d) := by
  have hmem : ∀ p ∈ l, p ∈ canonParts a b c d := fun p hp => hl.subset hp
  have hcomma : ∀ p ∈ l, ',' ∉ p := fun p hp =>
    canonParts_comma_free ha hb hc hd p (hmem p hp)
  have hns : ∀ ch ∈ joinComma l, isSpace ch = false := by
    intro ch hch
    rcases mem_joinComma hch with ⟨p, hp, hchp⟩ | rfl
    · exact canonParts_no_space ha hb hc hd p (hmem p hp) ch hchp
    · decide
  have hne : l ≠ [] := by
    intro h0
    rw [h0] at hl
    have hlen := hl.length_eq
    simp [canonParts] at hlen
  have hsplit : msgParts (joinComma l) = l := by
    unfold msgParts
    rw [stripSpaces_eq_self hns, joinComma_split hne hcomma]
  have hpp := processParts_perm hl.symm (canonParts_pairwise ha hb hc hd)
  unfold processMessage
  rw [hsplit, msgParts_canon ha hb hc hd, hpp initState]

/-- Witness for C8: the fully reversed segment order yields the same result
as the canonical order on the spec's example datagram. -/
theorem C8_witness :
    processMessage "Rotacao:305,Corrente:0.75,Tensao:12.50,Tempo_ms:120".data =
      processMessage "Tempo_ms:120,Tensao:12.50,Corrente:0.75,Rotacao:305".data := by
  have h := C8_segment_order_insensitive
    "120".data "12.50".data "0.75".data "305".data
    (by decide) (by decide) (by decide) (by decide)
    [kRotacao ++ "305".data, kCorrente ++ "0.75".data,
      kTensao ++ "12.50".data, kTempo ++ "120".data]
    (List.reverse_perm (canonParts "120".data "12.50".data "0.75".data "305".data))
  have h1 : joinComma [kRotacao ++ "305".data, kCorrente ++ "0.75".data,
      kTensao ++ "12.50".data, kTempo ++ "120".data] =
      "Rotacao:305,Corrente:0.75,Tensao:12.50,Tempo_ms:120".data := by decide
  have h2 : canonMsg "120".data "12.50".data "0.75".data "305".data =
      "Tempo_ms:120,Tensao:12.50,Corrente:0.75,Rotacao:305".data := by decide
  rw [h1, h2] at h
  exact h

/-- C9: per-datagram atomicity — if processing a received datagram raises
(e.g. a recognized key carrying a non-numeric value), that iteration writes
no row, leaves the last-accepted tracker unchanged, and the loop continues
with the next event. -/
theorem C9_exception_leaves_state_unchanged (s : LoopState) (msg : List Char)
    (evs : List RecvEvent) (h : processMessage msg = .errorOut) :
    stepIteration s msg = (s, [Action.warnProcError]) ∧
    runLoop s (RecvEvent.datagram msg :: evs) =
      ((runLoop s evs).1, Action.warnProcError :: (runLoop s evs).2) := by
  have h1 : stepIteration s msg = (s, [Action.warnProcError]) := by
    unfold stepIteration
    rw [h]
  refine ⟨h1, ?_⟩
  simp only [runLoop, h1]
  rfl

/-- Witness for C9: the datagram `Tempo_ms:abc` (non-numeric value on a
recognized key) raises; the state survives unchanged and the loop goes on. -/
theorem C9_witness :
    stepIteration initLoopState "Tempo_ms:abc".data =
      (initLoopState, [Action.warnProcError]) ∧
    runLoop initLoopState [RecvEvent.datagram "Tempo_ms:abc".data] =
      (initLoopState, [Action.warnProcError]) := by
  have h := C9_exception_leaves_state_unchanged initLoopState
    "Tempo_ms:abc".data [] (by decide)
  exact ⟨h.1, h.2⟩

/-- C10: sentinel collision — an accepted record with `Tempo_ms = -1` is
persisted and resets the tracker to the `-1` sentinel, so the immediately
following accepted record produces no out-of-order warning regardless of
its timestamp (while still being appended). -/
theorem C10_sentinel_minus_one (s : LoopState) (m₁ m₂ : List Char)
    (r₁ r₂ : Record) (h₁ : processMessage m₁ = .record r₁)
    (hts : r₁.timestamp_esp32 = -1) (h₂ : processMessage m₂ = .record r₂) :
    (stepIteration s m₁).1.log = s.log ++ [r₁] ∧
    (stepIteration s m₁).1.last_received_timestamp_esp32 = -1 ∧
    (stepIteration (stepIteration s m₁).1 m₂).2 = [Action.appendRow r₂] ∧
    (stepIteration (stepIteration s m₁).1 m₂).1.log = s.log ++ [r₁, r₂] := by
  have hs1 : (stepIteration s m₁).1 =
      ⟨r₁.timestamp_esp32, s.log ++ [r₁]⟩ := by
    unfold stepIteration
    rw [h₁]
  rw [hs1, hts]
  refine ⟨rfl, rfl, ?_, ?_⟩
  · unfold stepIteration
    simp only [h₂]
    simp
  · unfold stepIteration
    simp only [h₂]
    simp

/-- Witness for C10: after accepting `Tempo_ms:-1`, the record with
`Tempo_ms = -50 ≤ -1` is appended with no warning. -/
theorem C10_witness :
    (stepIteration ⟨5, []⟩
        "Tempo_ms:-1,Tensao:1.0,Corrente:1.0,Rotacao:1".data).1.log =
      [⟨-1, 1, 1, 1⟩] ∧
    (stepIteration ⟨5, []⟩
        "Tempo_ms:-1,Tensao:1.0,Corrente:1.0,Rotacao:1".data).1.last_received_timestamp_esp32 = -1 ∧
    (stepIteration
        (stepIteration ⟨5, []⟩
          "Tempo_ms:-1,Tensao:1.0,Corrente:1.0,Rotacao:1".data).1
        "Tempo_ms:-50,Tensao:2.0,Corrente:2.0,Rotacao:2".data).2 =
      [Action.appendRow ⟨-50, 2, 2, 2⟩] ∧
    (stepIteration
        (stepIteration ⟨5, []⟩
          "Tempo_ms:-1,Tensao:1.0,Corrente:1.0,Rotacao:1".data).1
        "Tempo_ms:-50,Tensao:2.0,Corrente:2.0,Rotacao:2".data).1.log =
      [⟨-1, 1, 1, 1⟩, ⟨-50, 2, 2, 2⟩] := by
  have h := C10_sentinel_minus_one ⟨5, []⟩
    "Tempo_ms:-1,Tensao:1.0,Corrente:1.0,Rotacao:1".data
    "Tempo_ms:-50,Tensao:2.0,Corrente:2.0,Rotacao:2".data
    ⟨-1, 1, 1, 1⟩ ⟨-50, 2, 2, 2⟩ (by decide) (by decide) (by decide)
  exact ⟨h.1, h.2.1, h.2.2.1, h.2.2.2⟩

end ESP32
